import Mathlib

/-!
# Verification of the FireBreath `FB::variant` core (src/ScriptingCore/variant.h)

A shallow embedding of the type-erased `variant` container and its
cast / convert-cast machinery.  The header under verification declares the
class and contains the full definitions of the sentinel types, the ordering
strategies (`variant_detail::lessthan`, the `std::weak_ptr` specialisation,
`variant::lessthan_default`) and the error type `bad_variant_cast`; the bodies
of `cast`, `convert_cast`, `reset`, `empty` and `get_type` live in a companion
implementation module that is not part of the sources, so those are modelled
from the specification text (each such definition is marked
`Modelled from the spec:`).

C++ machine types are embedded as `Int` with explicit range bounds
(`int` as 32-bit signed, `unsigned int` as 32-bit unsigned); the floating
payload is embedded as an exact rational, which is faithful for every value
the claims quantify over.  Throwing is embedded as `Except`.
-/

namespace FB

/-- The closed universe of runtime type identities used by the model:
the two sentinel types of `variant_detail`, representative arithmetic types,
`bool`, `std::string`, a `std::weak_ptr` instantiation, a payload type with
no usable `operator<`, and the structured external object (`JSObjectPtr`). -/
inductive VType where
  | tEmpty
  | tNull
  | tInt
  | tUInt
  | tDouble
  | tBool
  | tString
  | tWeakPtr
  | tUnorderable
  | tJSObject
  deriving DecidableEq, Repr

/-- The implementation-defined `std::type_info::name()` string of each type. -/
def VType.name : VType → String
  | .tEmpty => "N2FB14variant_detail5emptyE"
  | .tNull => "N2FB14variant_detail4nullE"
  | .tInt => "i"
  | .tUInt => "j"
  | .tDouble => "d"
  | .tBool => "b"
  | .tString => "NSt7__cxx1112basic_stringIcEE"
  | .tWeakPtr => "St8weak_ptrIiE"
  | .tUnorderable => "N2FB11UnorderableE"
  | .tJSObject => "St10shared_ptrIN2FB8JSObjectEE"

/-- Model of `std::weak_ptr<T>`: an owner (control-block/allocation) identity
plus the pointee value.  `owner_before` consults only the owner identity. -/
structure WeakPtr where
  owner : Nat
  pointee : Int
  deriving DecidableEq, Repr

/-- Model of `std::weak_ptr::owner_before`: the owner-identity strict order. -/
def WeakPtr.owner_before (a b : WeakPtr) : Bool :=
  a.owner < b.owner

/-- A payload type providing no usable native `operator<`. -/
structure Unorderable where
  tag : Nat
  deriving DecidableEq, Repr

/-- The erased payload held in the `boost::any` slot: exactly one concrete
value at a time.  `pJSObject` is the structured external array-like object,
whose indexed elements are themselves erased values. -/
inductive Payload where
  | pEmpty
  | pNull
  | pInt (v : Int)
  | pUInt (v : Int)
  | pDouble (q : Rat)
  | pBool (b : Bool)
  | pString (s : String)
  | pWeakPtr (w : WeakPtr)
  | pUnorderable (u : Unorderable)
  | pJSObject (elems : List Payload)

/-- The runtime type identity of a payload (`boost::any::type()`). -/
def Payload.vtype : Payload → VType
  | .pEmpty => .tEmpty
  | .pNull => .tNull
  | .pInt _ => .tInt
  | .pUInt _ => .tUInt
  | .pDouble _ => .tDouble
  | .pBool _ => .tBool
  | .pString _ => .tString
  | .pWeakPtr _ => .tWeakPtr
  | .pUnorderable _ => .tUnorderable
  | .pJSObject _ => .tJSObject

/-- The Lean carrier of each concrete C++ type in the universe. -/
@[reducible]
def VType.carrier : VType → Type
  | .tEmpty => Unit
  | .tNull => Unit
  | .tInt => Int
  | .tUInt => Int
  | .tDouble => Rat
  | .tBool => Bool
  | .tString => String
  | .tWeakPtr => WeakPtr
  | .tUnorderable => Unorderable
  | .tJSObject => List Payload

/-- Boxing a typed value into the erased payload (`boost::any` construction). -/
def Payload.ofVal : (t : VType) → t.carrier → Payload
  | .tEmpty, _ => .pEmpty
  | .tNull, _ => .pNull
  | .tInt, v => .pInt v
  | .tUInt, v => .pUInt v
  | .tDouble, q => .pDouble q
  | .tBool, b => .pBool b
  | .tString, s => .pString s
  | .tWeakPtr, w => .pWeakPtr w
  | .tUnorderable, u => .pUnorderable u
  | .tJSObject, es => .pJSObject es

/-- Typed read-back from the erased payload: `some` exactly when the stored
runtime type is exactly `t` (`boost::any_cast<T*>` semantics). -/
def Payload.get? : (t : VType) → Payload → Option t.carrier
  | .tEmpty, .pEmpty => some ()
  | .tNull, .pNull => some ()
  | .tInt, .pInt v => some v
  | .tUInt, .pUInt v => some v
  | .tDouble, .pDouble q => some q
  | .tBool, .pBool b => some b
  | .tString, .pString s => some s
  | .tWeakPtr, .pWeakPtr w => some w
  | .tUnorderable, .pUnorderable u => some u
  | .tJSObject, .pJSObject es => some es
  | _, _ => none

/-- The error type of the core: `FB::bad_variant_cast`, carrying the
implementation-defined names of the actual stored type and the requested
type, captured at construction from the two `std::type_info` arguments. -/
structure bad_variant_cast where
  from_ : String
  to_ : String
  deriving DecidableEq, Repr

/-- Constructor `bad_variant_cast(const std::type_info& src, const std::type_info& dest)`
constructor: records `from(src.name())` and `to(dest.name())`. -/
def bad_variant_cast.ofTypes (src dest : VType) : bad_variant_cast :=
  { from_ := src.name, to_ := dest.name }

/-- Method `bad_variant_cast::what()`: returns the constant string, independent of
the recorded type pair. -/
def bad_variant_cast.what (_ : bad_variant_cast) : String :=
  "bad cast"

/-- The variant: a single erased payload slot.  The bound ordering function
pointer of the C++ object is not stored separately: by the spec invariant it
is always the one selected for the stored payload's concrete type
(see `boundLessthan`), so it is recovered from `object` at each comparison. -/
structure Variant where
  object : Payload

/-- Typed construction `variant(const T& x)`: captures the concrete type and
a copy of the value. -/
def Variant.make (t : VType) (x : t.carrier) : Variant :=
  ⟨Payload.ofVal t x⟩

/-- Default construction: the empty state. -/
def Variant.default : Variant :=
  ⟨Payload.pEmpty⟩

/-- Modelled from the spec: `variant::get_type` (body not in the sources) —
returns the identity of the stored concrete type, the "empty/no value"
sentinel identity when unset. -/
def Variant.get_type (v : Variant) : VType :=
  v.object.vtype

/-- Modelled from the spec: `variant::empty` (body not in the sources) —
true iff the variant has not been assigned a value or has been reset. -/
def Variant.empty (v : Variant) : Bool :=
  v.get_type = VType.tEmpty

/-- Modelled from the spec: `variant::is_of_type<T>` (body not in the
sources) — true iff the stored concrete type is exactly `T`. -/
def Variant.is_of_type (t : VType) (v : Variant) : Bool :=
  v.get_type = t

/-- Modelled from the spec: `variant::reset` (body not in the sources) —
frees any value assigned and returns the variant to the empty state. -/
def Variant.reset (_ : Variant) : Variant :=
  ⟨Payload.pEmpty⟩

/-- Modelled from the spec: `variant::cast<T>` (body not in the sources) —
returns the stored value as exactly `T`; throws `bad_variant_cast` carrying
(actual stored type, requested type) when the stored type is not exactly `T`. -/
def Variant.cast (t : VType) (v : Variant) : Except bad_variant_cast t.carrier :=
  match v.object.get? t with
  | some x => .ok x
  | none => .error (bad_variant_cast.ofTypes v.object.vtype t)

/-! ## The numeric domain -/

def INT_MIN : Int := -2147483648

def INT_MAX : Int := 2147483647

def UINT_MAX : Int := 4294967295

/-- The arithmetic (non-`bool`) types of the universe. -/
def VType.isNumeric : VType → Bool
  | .tInt => true
  | .tUInt => true
  | .tDouble => true
  | _ => false

/-- The integral numeric types of the universe. -/
def VType.isIntegral : VType → Bool
  | .tInt => true
  | .tUInt => true
  | _ => false

/-- The true mathematical representable range of each integral type. -/
def intRangeOk : VType → Int → Bool
  | .tInt, z => decide (INT_MIN ≤ z) && decide (z ≤ INT_MAX)
  | .tUInt, z => decide (0 ≤ z) && decide (z ≤ UINT_MAX)
  | _, _ => false

/-- A carrier value well formed for its C++ type (integral values within the
machine range; every other carrier is exact). -/
def VType.wf : (t : VType) → t.carrier → Prop
  | .tInt, v => INT_MIN ≤ v ∧ v ≤ INT_MAX
  | .tUInt, v => 0 ≤ v ∧ v ≤ UINT_MAX
  | _, _ => True

/-- The exact mathematical value of a numeric payload, `none` otherwise. -/
def numAsRat? : Payload → Option Rat
  | .pInt v => some (v : Rat)
  | .pUInt v => some (v : Rat)
  | .pDouble q => some q
  | _ => none

/-- Truncation toward zero, the C++ floating-to-integral conversion:
T-division of the reduced numerator by the denominator. -/
def truncTowardZero (q : Rat) : Int :=
  q.num.tdiv q.den

/-- The exact mathematical value of a well-formed numeric carrier value
(used only to state theorems; `0` on non-numeric types). -/
def VType.asRat : (s : VType) → s.carrier → Rat
  | .tInt, v => (v : Rat)
  | .tUInt, v => (v : Rat)
  | .tDouble, q => q
  | _, _ => 0

/-! ## Decimal rendering and strict lexical parsing -/

def digitChar (d : Nat) : Char :=
  Char.ofNat (48 + d)

/-- The value of a decimal digit character, `none` for any other character. -/
def charDigit? (c : Char) : Option Nat :=
  if 48 ≤ c.toNat ∧ c.toNat ≤ 57 then some (c.toNat - 48) else none

/-- The digit values of a character list; `none` if any character is not a
decimal digit. -/
def digitVals? : List Char → Option (List Nat)
  | [] => some []
  | c :: cs =>
    match charDigit? c with
    | none => none
    | some d =>
      match digitVals? cs with
      | none => none
      | some ds => some (d :: ds)

/-- Strict parse of a nonempty all-digit character list (big-endian). -/
def natOfDigitChars? (cs : List Char) : Option Nat :=
  if cs = [] then none
  else
    match digitVals? cs with
    | none => none
    | some ds => some (Nat.ofDigits 10 ds.reverse)

/-- Big-endian decimal digits of a positive natural number; `fuel` bounds
the recursion depth (any `fuel ≥ n` is exact). -/
def natDecimalRenderAux : Nat → Nat → List Char
  | 0, _ => []
  | fuel + 1, n =>
    if n = 0 then []
    else natDecimalRenderAux fuel (n / 10) ++ [digitChar (n % 10)]

/-- Canonical decimal rendering of a natural number (big-endian digits). -/
def natDecimalRender (n : Nat) : List Char :=
  if n = 0 then ['0'] else natDecimalRenderAux n n

/-- Canonical decimal rendering of an integer. -/
def intDecimalRender (v : Int) : String :=
  if v < 0 then String.mk ('-' :: natDecimalRender v.natAbs)
  else String.mk (natDecimalRender v.natAbs)

/-- Strict lexical parse of a full string as an integer: an optional sign
followed by one or more decimal digits, nothing else; no partial-prefix
parsing. -/
def parseInt? (s : String) : Option Int :=
  match s.data with
  | [] => none
  | c :: cs =>
    if c = '-' then (natOfDigitChars? cs).map (fun n => -(Int.ofNat n))
    else if c = '+' then (natOfDigitChars? cs).map Int.ofNat
    else (natOfDigitChars? (c :: cs)).map Int.ofNat

/-- Split a character list at its first point character, if any. -/
def breakAtDot : List Char → List Char × Option (List Char)
  | [] => ([], none)
  | c :: cs =>
    if c = '.' then ([], some cs)
    else (c :: (breakAtDot cs).1, (breakAtDot cs).2)

/-- Strict parse of an unsigned decimal fraction: digits with at most one
point somewhere (a second point lands in the fraction part and is rejected
as a non-digit); the whole character list must be consumed. -/
def parseUnsignedRat? (cs : List Char) : Option Rat :=
  match breakAtDot cs with
  | (whole, none) => (natOfDigitChars? whole).map (fun n => (Nat.cast n : Rat))
  | (whole, some frac) =>
    match digitVals? whole, digitVals? frac with
    | some wds, some fds =>
      if whole = [] ∧ frac = [] then none
      else
        some ((Nat.ofDigits 10 (wds ++ fds).reverse : Rat) /
          (10 ^ frac.length : Rat))
    | _, _ => none

/-- Strict lexical parse of a full string as a decimal fraction: an optional
sign, digits, and at most one point; the whole string must be consumed and
no partial-prefix parse is ever returned. -/
def parseRat? (s : String) : Option Rat :=
  match s.data with
  | [] => none
  | c :: cs =>
    if c = '-' then (parseUnsignedRat? cs).map (fun q => -q)
    else if c = '+' then parseUnsignedRat? cs
    else parseUnsignedRat? (c :: cs)

/-- Canonical textual rendering of the floating payload: exact decimal for
integral values; non-integral values keep an exact numerator/denominator
rendering (no claim examines the non-integral rendering). -/
def ratDecimalRender (q : Rat) : String :=
  if q.den = 1 then intDecimalRender q.num
  else intDecimalRender q.num ++ "/" ++ String.mk (natDecimalRender q.den)

/-! ## The convert-cast engine (spec §4.3) -/

/-- Modelled from the spec: steps 2–3 of the dispatch for an integral target
`d` — the checked numeric conversion (range failure is a conversion failure,
floating values truncate toward zero) and the strict lexical parse of a
textual payload, with out-of-range parses failing. -/
def toIntegralChecked (d : VType) (p : Payload) : Option Int :=
  match numAsRat? p with
  | some q =>
    let z := truncTowardZero q
    if intRangeOk d z then some z else none
  | none =>
    match p with
    | .pString s =>
      match parseInt? s with
      | some z => if intRangeOk d z then some z else none
      | none => none
    | _ => none

/-- Modelled from the spec: steps 2–3 of the dispatch for the floating
target — numeric payloads convert exactly, textual payloads parse strictly. -/
def toDoubleChecked (p : Payload) : Option Rat :=
  match numAsRat? p with
  | some q => some q
  | none =>
    match p with
    | .pString s => parseRat? s
    | _ => none

/-- Modelled from the spec: step 5 of the dispatch — boolean coercion:
numeric zero/nonzero, or the case-insensitive literal strings
"true"/"false"; any other string is a conversion failure. -/
def toBoolChecked (p : Payload) : Option Bool :=
  match numAsRat? p with
  | some q => some (decide (q ≠ 0))
  | none =>
    match p with
    | .pString s =>
      let l := s.data.map Char.toLower
      if l = "true".data then some true
      else if l = "false".data then some false
      else none
    | _ => none

/-- Modelled from the spec: step 4 of the dispatch — the canonical decimal
(or boolean literal) textual rendering of a numeric or boolean payload. -/
def toStringRendered (p : Payload) : Option String :=
  match p with
  | .pInt v => some (intDecimalRender v)
  | .pUInt v => some (intDecimalRender v)
  | .pDouble q => some (ratDecimalRender q)
  | .pBool b => some (if b then "true" else "false")
  | _ => none

/-- Modelled from the spec: steps 2–7 of the `convert_cast` dispatch, after
the exact-type step 1 has failed.  Any pairing not covered fails with the
typed conversion error identifying the actual stored type and the target. -/
def convertRest : (t : VType) → Payload → Except bad_variant_cast t.carrier
  | .tInt, p =>
    match toIntegralChecked .tInt p with
    | some z => .ok z
    | none => .error (bad_variant_cast.ofTypes p.vtype .tInt)
  | .tUInt, p =>
    match toIntegralChecked .tUInt p with
    | some z => .ok z
    | none => .error (bad_variant_cast.ofTypes p.vtype .tUInt)
  | .tDouble, p =>
    match toDoubleChecked p with
    | some q => .ok q
    | none => .error (bad_variant_cast.ofTypes p.vtype .tDouble)
  | .tBool, p =>
    match toBoolChecked p with
    | some b => .ok b
    | none => .error (bad_variant_cast.ofTypes p.vtype .tBool)
  | .tString, p =>
    match toStringRendered p with
    | some s => .ok s
    | none => .error (bad_variant_cast.ofTypes p.vtype .tString)
  | t, p => .error (bad_variant_cast.ofTypes p.vtype t)

/-- Modelled from the spec: `variant::convert_cast<T>` for non-container `T`
(body not in the sources) — step 1 returns the stored value unchanged when
the stored type is exactly `T`; otherwise the heterogeneous conversion
engine runs, failing with a typed conversion error. -/
def Variant.convert_cast (t : VType) (v : Variant) : Except bad_variant_cast t.carrier :=
  match v.object.get? t with
  | some x => .ok x
  | none => convertRest t v.object

/-! ## The container conversion (the `Promise<T>` overload, spec §4.3 step 6) -/

/-- The deferred result handle of the container conversion: it completes
with the fully converted container or delivers the conversion failure
through its failure channel — there is no partial-success state. -/
abbrev Promise (α : Type) : Type :=
  Except bad_variant_cast α

/-- Whether a deferred handle (or conversion result) completed successfully. -/
def Promise.isOk {α : Type} : Promise α → Bool
  | .ok _ => true
  | .error _ => false

/-- Modelled from the spec: the per-element recursion of step 6 — each
indexed element of the structured external object is recursively
convert-cast to the container's element type, in index order; the first
failing element fails the whole conversion and later results are
discarded. -/
def convertElems (t : VType) : List Payload → Except bad_variant_cast (List t.carrier)
  | [] => .ok []
  | p :: rest =>
    match Variant.convert_cast t ⟨p⟩ with
    | .error e => .error e
    | .ok x =>
      match convertElems t rest with
      | .error e => .error e
      | .ok xs => .ok (x :: xs)

/-- Modelled from the spec: the container overload of `convert_cast`
(`enable_for_containers`, returning `Promise<T>`; body not in the sources)
for a sequence target with element type `t` — the stored value must be the
structured external array-like object, whose elements are assembled in
original index order; any other stored type is an uncovered pairing. -/
def Variant.convert_cast_seq (t : VType) (v : Variant) : Promise (List t.carrier) :=
  match v.object with
  | .pJSObject elems => convertElems t elems
  | p => .error { from_ := p.vtype.name, to_ := "St6vectorI" ++ t.name ++ "E" }

/-! ## The ordering machinery (src lines 62–90 and 302–304) -/

/-- Model of `boost::bad_any_cast`, thrown by a failed unchecked `boost::any_cast`. -/
structure bad_any_cast where
  deriving DecidableEq, Repr

/-- Model of `boost::any_cast<T>(const boost::any&)`: read the erased slot back as
exactly `T`, throwing `bad_any_cast` when the held type is not exactly `T`. -/
def any_cast (t : VType) (p : Payload) : Except bad_any_cast t.carrier :=
  match p.get? t with
  | some x => .ok x
  | none => .error ⟨⟩

/-- The native `operator<` of each concrete type that has a usable one;
`none` for the types without (the generic `lessthan<T>` template cannot be
instantiated for those).  The sentinel types' `operator<` returns `false`
(src lines 63–73); the weak-pointer type has no `operator<` — its ordering
comes from the dedicated specialisation; the ordering of the structured
external object handle is not modelled (no claim examines it). -/
def nativeLt : (t : VType) → Option (t.carrier → t.carrier → Bool)
  | .tEmpty => some (fun _ _ => false)
  | .tNull => some (fun _ _ => false)
  | .tInt => some (fun a b => decide (a < b))
  | .tUInt => some (fun a b => decide (a < b))
  | .tDouble => some (fun a b => decide (a < b))
  | .tBool => some (fun a b => !a && b)
  | .tString => some (fun a b => decide (a < b))
  | .tWeakPtr => none
  | .tUnorderable => none
  | .tJSObject => none

namespace variant_detail

/-- Embedding of `variant_detail::lessthan<T>::impl` (src lines 75–80): unchecked
`any_cast` of both erased arguments to `T`, then the native `operator<`;
throws `bad_any_cast` when either argument holds a type other than `T`. -/
def lessthan.impl (t : VType) (lt : t.carrier → t.carrier → Bool)
    (l r : Payload) : Except bad_any_cast Bool :=
  match any_cast t l with
  | .error e => .error e
  | .ok a =>
    match any_cast t r with
    | .error e => .error e
    | .ok b => .ok (lt a b)

/-- Embedding of `variant_detail::lessthan<std::weak_ptr<T>>::impl` (src lines 82–87):
unchecked `any_cast` of both arguments, compared with `owner_before`. -/
def lessthan.weakPtrImpl (l r : Payload) : Except bad_any_cast Bool :=
  match any_cast .tWeakPtr l with
  | .error e => .error e
  | .ok a =>
    match any_cast .tWeakPtr r with
    | .error e => .error e
    | .ok b => .ok (a.owner_before b)

end variant_detail

/-- Embedding of `variant::lessthan_default` (src lines 302–304): always `false`. -/
def Variant.lessthan_default (_ _ : Payload) : Bool :=
  false

/-- Modelled from the spec: the ordering function bound (at construction or
typed assignment) to the stored concrete type — the weak-reference payload
type gets the owner-identity specialisation, each type with a usable native
`operator<` gets the generic `lessthan<T>::impl`, and every type lacking a
usable ordering gets the total-false `lessthan_default`. -/
def boundLessthan (t : VType) : Payload → Payload → Except bad_any_cast Bool :=
  if t = .tWeakPtr then variant_detail.lessthan.weakPtrImpl
  else
    match nativeLt t with
    | some lt => variant_detail.lessthan.impl t lt
    | none => fun l r => .ok (Variant.lessthan_default l r)

/-- Embedding of `variant::operator<`: applies the bound ordering function of the
left-hand variant to the two erased payloads. -/
def Variant.lt (a b : Variant) : Except bad_any_cast Bool :=
  boundLessthan a.get_type a.object b.object

/-! ## Properties of the erased storage -/

theorem Payload.vtype_ofVal (t : VType) (x : t.carrier) :
    (Payload.ofVal t x).vtype = t := by
  cases t <;> rfl

theorem Payload.get?_ofVal_self (t : VType) (x : t.carrier) :
    (Payload.ofVal t x).get? t = some x := by
  cases t <;> rfl

theorem Payload.get?_eq_none_of_ne (t : VType) (p : Payload) (h : p.vtype ≠ t) :
    p.get? t = none := by
  cases t <;> cases p <;> first
    | rfl
    | exact absurd rfl h

theorem Payload.get?_eq_some_iff (t : VType) (p : Payload) (x : t.carrier) :
    p.get? t = some x ↔ p = Payload.ofVal t x := by
  constructor
  · intro h
    cases t <;> cases p <;>
      simp_all [Payload.get?, Payload.ofVal]
  · intro h
    subst h
    exact Payload.get?_ofVal_self t x

/-! ## Correctness of the decimal render / strict parse pair -/

theorem charDigit?_digitChar {d : Nat} (h : d < 10) :
    charDigit? (digitChar d) = some d := by
  interval_cases d <;> rfl

theorem charDigit?_isSome_of_digitVals?_cons {c : Char} {cs : List Char}
    {ds : List Nat} (h : digitVals? (c :: cs) = some ds) :
    ∃ d, charDigit? c = some d := by
  rw [digitVals?] at h
  cases hc : charDigit? c with
  | none => rw [hc] at h; exact absurd h (by simp)
  | some d => exact ⟨d, rfl⟩

theorem digitVals?_append_some {xs ys : List Char} {a b : List Nat}
    (hx : digitVals? xs = some a) (hy : digitVals? ys = some b) :
    digitVals? (xs ++ ys) = some (a ++ b) := by
  induction xs generalizing a with
  | nil =>
    rw [digitVals?] at hx
    cases hx
    simpa using hy
  | cons c cs ih =>
    rw [digitVals?] at hx
    rw [List.cons_append, digitVals?]
    cases hc : charDigit? c with
    | none => rw [hc] at hx; exact absurd hx (by simp)
    | some d =>
      rw [hc] at hx
      cases hcs : digitVals? cs with
      | none => rw [hcs] at hx; exact absurd hx (by simp)
      | some ds =>
        rw [hcs] at hx
        cases hx
        rw [ih hcs]
        rfl

theorem digitVals?_append_none {c : Char} (xs : List Char)
    (hc : charDigit? c = none) :
    digitVals? (xs ++ [c]) = none := by
  induction xs with
  | nil => simp [digitVals?, hc]
  | cons a as ih =>
    rw [List.cons_append, digitVals?]
    cases charDigit? a with
    | none => rfl
    | some d => rw [ih]

theorem natDecimalRenderAux_spec :
    ∀ fuel n, n ≤ fuel →
      ∃ ds, digitVals? (natDecimalRenderAux fuel n) = some ds ∧
        Nat.ofDigits 10 ds.reverse = n := by
  intro fuel
  induction fuel with
  | zero =>
    intro n hn
    interval_cases n
    exact ⟨[], rfl, rfl⟩
  | succ f ih =>
    intro n hn
    by_cases h0 : n = 0
    · subst h0
      exact ⟨[], by rw [natDecimalRenderAux, if_pos rfl]; rfl, rfl⟩
    · have hlt : n / 10 < n := Nat.div_lt_self (by omega) (by omega)
      obtain ⟨ds, hds, hval⟩ := ih (n / 10) (by omega)
      refine ⟨ds ++ [n % 10], ?_, ?_⟩
      · rw [natDecimalRenderAux, if_neg h0]
        exact digitVals?_append_some hds
          (by rw [digitVals?, charDigit?_digitChar (Nat.mod_lt n (by omega))]; rfl)
      · rw [List.reverse_append, List.reverse_singleton, List.singleton_append,
          Nat.ofDigits_cons, hval]
        omega

theorem natDecimalRender_ne_nil (n : Nat) : natDecimalRender n ≠ [] := by
  rw [natDecimalRender]
  by_cases h0 : n = 0
  · rw [if_pos h0]
    exact List.cons_ne_nil _ _
  · rw [if_neg h0]
    cases n with
    | zero => exact absurd rfl h0
    | succ m =>
      rw [natDecimalRenderAux, if_neg h0]
      exact List.append_ne_nil_of_right_ne_nil _ (List.cons_ne_nil _ _)

theorem digitVals?_natDecimalRender (n : Nat) :
    ∃ ds, digitVals? (natDecimalRender n) = some ds ∧
      Nat.ofDigits 10 ds.reverse = n := by
  rw [natDecimalRender]
  by_cases h0 : n = 0
  · subst h0
    exact ⟨[0], rfl, rfl⟩
  · rw [if_neg h0]
    exact natDecimalRenderAux_spec n n le_rfl

theorem natOfDigitChars?_render (n : Nat) :
    natOfDigitChars? (natDecimalRender n) = some n := by
  obtain ⟨ds, hds, hval⟩ := digitVals?_natDecimalRender n
  rw [natOfDigitChars?, if_neg (natDecimalRender_ne_nil n), hds]
  show some (Nat.ofDigits 10 ds.reverse) = some n
  rw [hval]

theorem natDecimalRender_head_not_sign (n : Nat) (c : Char) (cs : List Char)
    (h : natDecimalRender n = c :: cs) : c ≠ '-' ∧ c ≠ '+' := by
  obtain ⟨ds, hds, _⟩ := digitVals?_natDecimalRender n
  rw [h] at hds
  obtain ⟨d, hd⟩ := charDigit?_isSome_of_digitVals?_cons hds
  constructor
  · intro hc; subst hc; exact absurd hd (by rw [show charDigit? '-' = none from rfl]; simp)
  · intro hc; subst hc; exact absurd hd (by rw [show charDigit? '+' = none from rfl]; simp)

theorem Payload.get?_isSome_of_vtype (t : VType) (p : Payload) (h : p.vtype = t) :
    ∃ x, p.get? t = some x := by
  subst h
  cases p <;> exact ⟨_, rfl⟩

theorem intRangeOk_tInt_iff (z : Int) :
    intRangeOk .tInt z = true ↔ (INT_MIN ≤ z ∧ z ≤ INT_MAX) := by
  simp [intRangeOk]

theorem intRangeOk_tUInt_iff (z : Int) :
    intRangeOk .tUInt z = true ↔ (0 ≤ z ∧ z ≤ UINT_MAX) := by
  simp [intRangeOk]

theorem truncTowardZero_intCast (v : Int) :
    truncTowardZero ((v : Int) : Rat) = v := by
  rw [truncTowardZero, Rat.num_intCast, Rat.den_intCast]
  simp [Int.tdiv_one]

theorem parseInt?_mk_cons (c : Char) (cs : List Char) :
    parseInt? (String.mk (c :: cs)) =
      if c = '-' then (natOfDigitChars? cs).map (fun n => -(Int.ofNat n))
      else if c = '+' then (natOfDigitChars? cs).map Int.ofNat
      else (natOfDigitChars? (c :: cs)).map Int.ofNat := rfl

/-- The decimal render / strict parse round trip on integers. -/
theorem parseInt?_intDecimalRender (v : Int) :
    parseInt? (intDecimalRender v) = some v := by
  by_cases hv : v < 0
  · rw [intDecimalRender, if_pos hv, parseInt?_mk_cons, if_pos rfl,
      natOfDigitChars?_render]
    show some (-(Int.ofNat v.natAbs)) = some v
    congr 1
    simp only [Int.ofNat_eq_natCast]
    omega
  · rw [intDecimalRender, if_neg hv]
    cases hr : natDecimalRender v.natAbs with
    | nil => exact absurd hr (natDecimalRender_ne_nil _)
    | cons c cs =>
      obtain ⟨hc1, hc2⟩ := natDecimalRender_head_not_sign _ _ _ hr
      rw [parseInt?_mk_cons, if_neg hc1, if_neg hc2, ← hr,
        natOfDigitChars?_render]
      show some (Int.ofNat v.natAbs) = some v
      congr 1
      simp only [Int.ofNat_eq_natCast]
      omega

theorem natOfDigitChars?_append_none {c : Char} (xs : List Char)
    (hc : charDigit? c = none) :
    natOfDigitChars? (xs ++ [c]) = none := by
  rw [natOfDigitChars?,
    if_neg (List.append_ne_nil_of_right_ne_nil _ (List.cons_ne_nil _ _)),
    digitVals?_append_none xs hc]

/-- Appending any non-digit, non-sign character to a string makes the
strict integer parse fail as a whole (no partial-prefix parsing). -/
theorem parseInt?_push_nondigit (s : String) (c : Char)
    (hc : charDigit? c = none) (hm : c ≠ '-') (hp : c ≠ '+') :
    parseInt? (s.push c) = none := by
  obtain ⟨data⟩ := s
  show parseInt? (String.mk (data ++ [c])) = none
  cases data with
  | nil =>
    rw [List.nil_append, parseInt?_mk_cons, if_neg hm, if_neg hp,
      show ([c] : List Char) = [] ++ [c] from rfl,
      natOfDigitChars?_append_none [] hc]
    rfl
  | cons a as =>
    rw [List.cons_append, parseInt?_mk_cons]
    by_cases ha : a = '-'
    · rw [if_pos ha, natOfDigitChars?_append_none as hc]
      rfl
    · rw [if_neg ha]
      by_cases hb : a = '+'
      · rw [if_pos hb, natOfDigitChars?_append_none as hc]
        rfl
      · rw [if_neg hb, ← List.cons_append,
          natOfDigitChars?_append_none (a :: as) hc]
        rfl

/-! ## Bridge lemmas: the engine on concrete payload shapes -/

theorem convert_cast_tInt_pString (s : String) :
    Variant.convert_cast .tInt ⟨Payload.pString s⟩ =
      match parseInt? s with
      | some z =>
        if intRangeOk .tInt z then Except.ok z
        else Except.error (bad_variant_cast.ofTypes .tString .tInt)
      | none => Except.error (bad_variant_cast.ofTypes .tString .tInt) := by
  show (match (match parseInt? s with
      | some z => if intRangeOk .tInt z then some z else none
      | none => none) with
      | some z => Except.ok z
      | none => Except.error (bad_variant_cast.ofTypes .tString .tInt)) = _
  cases parseInt? s with
  | none => rfl
  | some z =>
    by_cases h : intRangeOk .tInt z = true
    · simp [h]
    · simp [h]

theorem convert_cast_tUInt_pString (s : String) :
    Variant.convert_cast .tUInt ⟨Payload.pString s⟩ =
      match parseInt? s with
      | some z =>
        if intRangeOk .tUInt z then Except.ok z
        else Except.error (bad_variant_cast.ofTypes .tString .tUInt)
      | none => Except.error (bad_variant_cast.ofTypes .tString .tUInt) := by
  show (match (match parseInt? s with
      | some z => if intRangeOk .tUInt z then some z else none
      | none => none) with
      | some z => Except.ok z
      | none => Except.error (bad_variant_cast.ofTypes .tString .tUInt)) = _
  cases parseInt? s with
  | none => rfl
  | some z =>
    by_cases h : intRangeOk .tUInt z = true
    · simp [h]
    · simp [h]

theorem match_option_ok_err {α : Type} (b : Bool) (z : α) (e : bad_variant_cast) :
    (match (if b then some z else none) with
      | some x => Except.ok x
      | none => Except.error e) =
      (if b then Except.ok z else Except.error e) := by
  cases b <;> rfl

theorem convertRest_tInt_numeric (p : Payload) (q : Rat)
    (hq : numAsRat? p = some q) :
    convertRest .tInt p =
      if intRangeOk .tInt (truncTowardZero q) then
        Except.ok (truncTowardZero q)
      else Except.error (bad_variant_cast.ofTypes p.vtype .tInt) := by
  cases p <;> cases hq
  · rename_i v
    simp only [convertRest.eq_def, toIntegralChecked.eq_def, numAsRat?,
      Payload.vtype]
    by_cases h : intRangeOk .tInt (truncTowardZero ((v : Int) : Rat)) = true
    · simp [h]
    · simp [h]
  · rename_i v
    simp only [convertRest.eq_def, toIntegralChecked.eq_def, numAsRat?,
      Payload.vtype]
    by_cases h : intRangeOk .tInt (truncTowardZero ((v : Int) : Rat)) = true
    · simp [h]
    · simp [h]
  · simp only [convertRest.eq_def, toIntegralChecked.eq_def, numAsRat?,
      Payload.vtype]
    by_cases h : intRangeOk .tInt (truncTowardZero q) = true
    · simp [h]
    · simp [h]

theorem convertRest_tUInt_numeric (p : Payload) (q : Rat)
    (hq : numAsRat? p = some q) :
    convertRest .tUInt p =
      if intRangeOk .tUInt (truncTowardZero q) then
        Except.ok (truncTowardZero q)
      else Except.error (bad_variant_cast.ofTypes p.vtype .tUInt) := by
  cases p <;> cases hq
  · rename_i v
    simp only [convertRest.eq_def, toIntegralChecked.eq_def, numAsRat?,
      Payload.vtype]
    by_cases h : intRangeOk .tUInt (truncTowardZero ((v : Int) : Rat)) = true
    · simp [h]
    · simp [h]
  · rename_i v
    simp only [convertRest.eq_def, toIntegralChecked.eq_def, numAsRat?,
      Payload.vtype]
    by_cases h : intRangeOk .tUInt (truncTowardZero ((v : Int) : Rat)) = true
    · simp [h]
    · simp [h]
  · simp only [convertRest.eq_def, toIntegralChecked.eq_def, numAsRat?,
      Payload.vtype]
    by_cases h : intRangeOk .tUInt (truncTowardZero q) = true
    · simp [h]
    · simp [h]

theorem any_cast_eq_error (t : VType) (p : Payload) (h : p.get? t = none) :
    any_cast t p = .error ⟨⟩ := by
  simp only [any_cast.eq_def]
  rw [h]

theorem any_cast_eq_ok (t : VType) (p : Payload) (x : t.carrier)
    (h : p.get? t = some x) :
    any_cast t p = .ok x := by
  simp only [any_cast.eq_def]
  rw [h]

theorem Variant.cast_eq_ok (t : VType) (v : Variant) (x : t.carrier)
    (h : v.object.get? t = some x) :
    v.cast t = .ok x := by
  simp only [Variant.cast.eq_def]
  rw [h]

theorem Variant.cast_eq_error (t : VType) (v : Variant)
    (h : v.object.get? t = none) :
    v.cast t = .error (bad_variant_cast.ofTypes v.object.vtype t) := by
  simp only [Variant.cast.eq_def]
  rw [h]

theorem Variant.convert_cast_eq_ok_of_exact (t : VType) (v : Variant)
    (x : t.carrier) (h : v.object.get? t = some x) :
    v.convert_cast t = .ok x := by
  simp only [Variant.convert_cast.eq_def]
  rw [h]

theorem Variant.convert_cast_eq_convertRest (t : VType) (v : Variant)
    (h : v.object.get? t = none) :
    v.convert_cast t = convertRest t v.object := by
  simp only [Variant.convert_cast.eq_def]
  rw [h]

/-! ## The claims -/

/-- C1: for every supported concrete type `t`, every value `x` of `t` and
every requested type `u ≠ t`: a variant constructed from `x` yields exactly
`x` under `cast<t>`, while `cast<u>` fails with the typed cast error whose
recorded pair is (actual = `t`, requested = `u`) — never a truncated,
promoted or defaulted value. -/
theorem variant_cast_exact (t u : VType) (x : t.carrier) (h : u ≠ t) :
    (Variant.make t x).cast t = .ok x ∧
    (Variant.make t x).cast u = .error (bad_variant_cast.ofTypes t u) := by
  constructor
  · exact Variant.cast_eq_ok t _ x (Payload.get?_ofVal_self t x)
  · have hnone : (Payload.ofVal t x).get? u = none :=
      Payload.get?_eq_none_of_ne u _ (by rw [Payload.vtype_ofVal]; exact h.symm)
    have := Variant.cast_eq_error u (Variant.make t x) hnone
    rwa [show (Variant.make t x).object.vtype = t from Payload.vtype_ofVal t x]
      at this

theorem variant_cast_exact_witness :
    (Variant.make .tInt 5).cast .tInt = .ok 5 ∧
    (Variant.make .tInt 5).cast .tBool =
      .error (bad_variant_cast.ofTypes .tInt .tBool) :=
  variant_cast_exact .tInt .tBool 5 (by decide)

/-- C9: for every type pair, the constructed `bad_variant_cast` reports the
constant `what()` message "bad cast", independent of the pair, while the
two type identities are observable only through the `from` and `to` fields,
which hold the implementation-defined names captured at construction. -/
theorem bad_variant_cast_what_and_fields (s d : VType) :
    (bad_variant_cast.ofTypes s d).what = "bad cast" ∧
    (bad_variant_cast.ofTypes s d).from_ = s.name ∧
    (bad_variant_cast.ofTypes s d).to_ = d.name :=
  ⟨rfl, rfl, rfl⟩

/-- C10: the generic bound comparator `variant_detail::lessthan<T>::impl`
performs unchecked `any_cast` extraction, so whenever either erased
argument holds a type other than `T` it throws a `bad_any_cast` instead of
returning `false`: heterogeneous ordering comparison is not the silent
total-false comparison used for unorderable types. -/
theorem lessthan_impl_throws_on_foreign (t : VType)
    (lt : t.carrier → t.carrier → Bool) (l r : Payload)
    (h : l.vtype ≠ t ∨ r.vtype ≠ t) :
    variant_detail.lessthan.impl t lt l r = .error ⟨⟩ := by
  by_cases hv : l.vtype = t
  · obtain ⟨x, hx⟩ := Payload.get?_isSome_of_vtype t l hv
    have hr : r.vtype ≠ t := by
      rcases h with h | h
      · exact absurd hv h
      · exact h
    have hre := any_cast_eq_error t r (Payload.get?_eq_none_of_ne t r hr)
    simp only [variant_detail.lessthan.impl.eq_def]
    rw [any_cast_eq_ok t l x hx, hre]
  · have hle := any_cast_eq_error t l (Payload.get?_eq_none_of_ne t l hv)
    simp only [variant_detail.lessthan.impl.eq_def]
    rw [hle]

theorem lessthan_impl_throws_on_foreign_witness :
    variant_detail.lessthan.impl .tInt (fun a b => decide (a < b))
      (.pInt 3) (.pString "x") = .error ⟨⟩ :=
  lessthan_impl_throws_on_foreign .tInt (fun a b => decide (a < b))
    (.pInt 3) (.pString "x") (Or.inr (by decide))

/-- C8: two variants holding weak-reference payloads with the same owner
identity are never strictly-less-than each other in either direction
(ordering is by owner identity, not pointee value), and two variants
holding payloads of a type with no usable native ordering compare
strictly-less-than false in both directions, without throwing. -/
theorem variant_lt_owner_and_unorderable (w1 w2 : WeakPtr)
    (u1 u2 : Unorderable) (h : w1.owner = w2.owner) :
    Variant.lt (Variant.make .tWeakPtr w1) (Variant.make .tWeakPtr w2) =
      .ok false ∧
    Variant.lt (Variant.make .tWeakPtr w2) (Variant.make .tWeakPtr w1) =
      .ok false ∧
    Variant.lt (Variant.make .tUnorderable u1) (Variant.make .tUnorderable u2) =
      .ok false ∧
    Variant.lt (Variant.make .tUnorderable u2) (Variant.make .tUnorderable u1) =
      .ok false := by
  refine ⟨?_, ?_, rfl, rfl⟩
  · show Except.ok (w1.owner_before w2) = Except.ok false
    simp [WeakPtr.owner_before, h]
  · show Except.ok (w2.owner_before w1) = Except.ok false
    simp [WeakPtr.owner_before, h]

theorem variant_lt_owner_and_unorderable_witness :
    Variant.lt (Variant.make .tWeakPtr ⟨3, 7⟩) (Variant.make .tWeakPtr ⟨3, 99⟩) =
      .ok false ∧
    Variant.lt (Variant.make .tWeakPtr ⟨3, 99⟩) (Variant.make .tWeakPtr ⟨3, 7⟩) =
      .ok false ∧
    Variant.lt (Variant.make .tUnorderable ⟨1⟩) (Variant.make .tUnorderable ⟨2⟩) =
      .ok false ∧
    Variant.lt (Variant.make .tUnorderable ⟨2⟩) (Variant.make .tUnorderable ⟨1⟩) =
      .ok false :=
  variant_lt_owner_and_unorderable ⟨3, 7⟩ ⟨3, 99⟩ ⟨1⟩ ⟨2⟩ rfl

/-- C6 counterexample: after `reset()` the payload is the empty sentinel
value, so exact retrieval at the empty sentinel type itself succeeds — it
does not fail for *every* type `T` as claimed. -/
theorem reset_cast_empty_sentinel_succeeds :
    (Variant.default.reset).cast .tEmpty = .ok () := rfl

/-- C6 (amended): after `reset()`, `empty()` is true, `get_type()` is the
empty-type sentinel, and exact retrieval fails with the typed cast error
for every type other than the empty sentinel type itself. -/
theorem reset_state_and_casts (v : Variant) :
    (v.reset).empty = true ∧
    (v.reset).get_type = VType.tEmpty ∧
    ∀ t : VType, t ≠ .tEmpty →
      (v.reset).cast t = .error (bad_variant_cast.ofTypes .tEmpty t) := by
  refine ⟨rfl, rfl, ?_⟩
  intro t ht
  exact Variant.cast_eq_error t (v.reset)
    (Payload.get?_eq_none_of_ne t _ ht.symm)

theorem reset_state_and_casts_witness :
    (Variant.default.reset).cast .tInt =
      .error (bad_variant_cast.ofTypes .tEmpty .tInt) :=
  (reset_state_and_casts Variant.default).2.2 .tInt (by decide)

theorem Promise.isOk_ok {α : Type} (x : α) :
    Promise.isOk (.ok x) = true := rfl

theorem Promise.isOk_error {α : Type} (e : bad_variant_cast) :
    Promise.isOk (.error e : Promise α) = false := rfl

theorem convertElems_isOk_iff (t : VType) (elems : List Payload) :
    Promise.isOk (convertElems t elems) = true ↔
      ∀ p ∈ elems, Promise.isOk (Variant.convert_cast t ⟨p⟩) = true := by
  induction elems with
  | nil => simp [convertElems, Promise.isOk]
  | cons p rest ih =>
    cases hc : Variant.convert_cast t ⟨p⟩ with
    | error e =>
      have h1 : convertElems t (p :: rest) = .error e := by
        simp [convertElems, hc]
      simp [h1, Promise.isOk_error, Promise.isOk_ok, List.forall_mem_cons, hc]
    | ok x =>
      cases hr : convertElems t rest with
      | error e =>
        have h1 : convertElems t (p :: rest) = .error e := by
          simp [convertElems, hc, hr]
        have h2 : ¬ ∀ q ∈ rest, Promise.isOk (Variant.convert_cast t ⟨q⟩) = true := by
          intro hall
          have hok := ih.mpr hall
          rw [hr] at hok
          exact absurd hok (by simp [Promise.isOk_error])
        simp [h1, Promise.isOk_error, Promise.isOk_ok, List.forall_mem_cons,
          hc, h2]
      | ok xs =>
        have h1 : convertElems t (p :: rest) = .ok (x :: xs) := by
          simp [convertElems, hc, hr]
        have h2 : ∀ q ∈ rest, Promise.isOk (Variant.convert_cast t ⟨q⟩) = true :=
          ih.mp (by rw [hr]; rfl)
        simp [h1, Promise.isOk_error, Promise.isOk_ok, List.forall_mem_cons, hc]
        exact h2

theorem convertElems_ok_get (t : VType) :
    ∀ (elems : List Payload) (l : List t.carrier),
      convertElems t elems = .ok l →
      ∀ i (hi : i < elems.length), ∃ hl : i < l.length,
        Variant.convert_cast t ⟨elems.get ⟨i, hi⟩⟩ = .ok (l.get ⟨i, hl⟩) := by
  intro elems
  induction elems with
  | nil =>
    intro l h i hi
    exact absurd hi (by simp)
  | cons p rest ih =>
    intro l h i hi
    cases hc : Variant.convert_cast t ⟨p⟩ with
    | error e => simp [convertElems, hc] at h
    | ok x =>
      cases hr : convertElems t rest with
      | error e => simp [convertElems, hc, hr] at h
      | ok xs =>
        simp only [convertElems, hc, hr, Except.ok.injEq] at h
        subst h
        cases i with
        | zero => exact ⟨by simp, by simpa using hc⟩
        | succ j =>
          obtain ⟨hl, hj⟩ := ih xs hr j (by simpa using hi)
          exact ⟨by simpa using hl, by simpa using hj⟩

/-- C3: converting the structured external array-like object whose elements
are each convertible yields exactly the converted elements in original
index order (["1","2","3"] into a sequence-of-int target gives [1,2,3]);
an unconvertible element ("x") fails the whole conversion through the
returned deferred handle, and the handle succeeds exactly when every
element converts — no partial sequence is ever observable, conversion is
all-or-nothing per call. -/
theorem convert_cast_seq_all_or_nothing (t : VType) (elems : List Payload) :
    (Variant.convert_cast_seq .tInt
        ⟨.pJSObject [.pString "1", .pString "2", .pString "3"]⟩ =
      .ok [1, 2, 3]) ∧
    (Variant.convert_cast_seq .tInt
        ⟨.pJSObject [.pString "1", .pString "x", .pString "3"]⟩ =
      .error (bad_variant_cast.ofTypes .tString .tInt)) ∧
    (Promise.isOk (Variant.convert_cast_seq t ⟨.pJSObject elems⟩) = true ↔
      ∀ p ∈ elems, Promise.isOk (Variant.convert_cast t ⟨p⟩) = true) ∧
    (∀ l, Variant.convert_cast_seq t ⟨.pJSObject elems⟩ = .ok l →
      ∀ i (hi : i < elems.length), ∃ hl : i < l.length,
        Variant.convert_cast t ⟨elems.get ⟨i, hi⟩⟩ = .ok (l.get ⟨i, hl⟩)) := by
  refine ⟨rfl, rfl, convertElems_isOk_iff t elems, ?_⟩
  intro l h
  exact convertElems_ok_get t elems l h

theorem convert_cast_seq_all_or_nothing_witness :
    ∃ hl : 0 < ([7] : List Int).length,
      Variant.convert_cast .tUInt ⟨Payload.pString "7"⟩ =
        .ok (([7] : List Int).get ⟨0, hl⟩) :=
  (convert_cast_seq_all_or_nothing .tUInt [Payload.pString "7"]).2.2.2
    [7] rfl 0 (by decide)

theorem toBoolChecked_pString (s : String) :
    toBoolChecked (.pString s) =
      (if s.data.map Char.toLower = "true".data then some true
       else if s.data.map Char.toLower = "false".data then some false
       else none) := by
  simp only [toBoolChecked.eq_def, numAsRat?]

theorem convertRest_tBool_pString (s : String) :
    convertRest .tBool (.pString s) =
      (if s.data.map Char.toLower = "true".data then Except.ok true
       else if s.data.map Char.toLower = "false".data then Except.ok false
       else Except.error (bad_variant_cast.ofTypes .tString .tBool)) := by
  by_cases h1 : s.data.map Char.toLower = "true".data
  · have hb : toBoolChecked (.pString s) = some true := by
      rw [toBoolChecked_pString, if_pos h1]
    simp [convertRest.eq_def, hb, Payload.vtype, h1]
  · by_cases h2 : s.data.map Char.toLower = "false".data
    · have hb : toBoolChecked (.pString s) = some false := by
        rw [toBoolChecked_pString, if_neg h1, if_pos h2]
      simp [convertRest.eq_def, hb, Payload.vtype, h1, h2]
    · have hb : toBoolChecked (.pString s) = none := by
        rw [toBoolChecked_pString, if_neg h1, if_neg h2]
      simp [convertRest.eq_def, hb, Payload.vtype, h1, h2]

/-- C4: convert-cast to bool maps every numeric payload to false exactly on
zero and true on every nonzero value; a textual payload converts to true for
the case-insensitive literal "true", to false for the case-insensitive
literal "false", and fails with the typed conversion error for every other
string. -/
theorem convert_cast_bool_coercion (s : VType) (hs : s.isNumeric = true)
    (x : s.carrier) (str : String) :
    ((Variant.make s x).convert_cast .tBool =
      .ok (decide (VType.asRat s x ≠ 0))) ∧
    (str.data.map Char.toLower = "true".data →
      (Variant.make .tString str).convert_cast .tBool = .ok true) ∧
    (str.data.map Char.toLower = "false".data →
      (Variant.make .tString str).convert_cast .tBool = .ok false) ∧
    (str.data.map Char.toLower ≠ "true".data →
      str.data.map Char.toLower ≠ "false".data →
      (Variant.make .tString str).convert_cast .tBool =
        .error (bad_variant_cast.ofTypes .tString .tBool)) := by
  have hrw : (Variant.make .tString str).convert_cast .tBool =
      convertRest .tBool (.pString str) :=
    Variant.convert_cast_eq_convertRest .tBool _ rfl
  refine ⟨?_, ?_, ?_, ?_⟩
  · cases s
    case tInt => rfl
    case tUInt => rfl
    case tDouble => rfl
    all_goals exact absurd hs (by decide)
  · intro h
    rw [hrw, convertRest_tBool_pString, if_pos h]
  · intro h
    by_cases h1 : str.data.map Char.toLower = "true".data
    · exact absurd h (by rw [h1]; decide)
    · rw [hrw, convertRest_tBool_pString, if_neg h1, if_pos h]
  · intro h1 h2
    rw [hrw, convertRest_tBool_pString, if_neg h1, if_neg h2]

theorem convert_cast_bool_coercion_witness :
    (Variant.make .tString "TRUE").convert_cast .tBool = .ok true ∧
    (Variant.make .tString "garbage").convert_cast .tBool =
      .error (bad_variant_cast.ofTypes .tString .tBool) ∧
    (Variant.make .tInt 5).convert_cast .tBool =
      .ok (decide (VType.asRat .tInt 5 ≠ 0)) :=
  ⟨(convert_cast_bool_coercion .tInt rfl 0 "TRUE").2.1 (by rfl),
   (convert_cast_bool_coercion .tInt rfl 0 "garbage").2.2.2
     (by decide) (by decide),
   (convert_cast_bool_coercion .tInt rfl 5 "x").1⟩

theorem convert_tInt_string_ok (s : String) (z : Int)
    (hp : parseInt? s = some z) (hr : intRangeOk .tInt z = true) :
    (Variant.make .tString s).convert_cast .tInt = .ok z := by
  have hb : (Variant.make .tString s).convert_cast .tInt =
      (match parseInt? s with
        | some w =>
          if intRangeOk .tInt w then Except.ok w
          else Except.error (bad_variant_cast.ofTypes .tString .tInt)
        | none => Except.error (bad_variant_cast.ofTypes .tString .tInt)) :=
    convert_cast_tInt_pString s
  rw [hb, hp]
  simp [hr]

theorem convert_tInt_string_err (s : String)
    (h : parseInt? s = none ∨
      ∃ z, parseInt? s = some z ∧ intRangeOk .tInt z = false) :
    (Variant.make .tString s).convert_cast .tInt =
      .error (bad_variant_cast.ofTypes .tString .tInt) := by
  have hb : (Variant.make .tString s).convert_cast .tInt =
      (match parseInt? s with
        | some w =>
          if intRangeOk .tInt w then Except.ok w
          else Except.error (bad_variant_cast.ofTypes .tString .tInt)
        | none => Except.error (bad_variant_cast.ofTypes .tString .tInt)) :=
    convert_cast_tInt_pString s
  rcases h with hp | ⟨z, hp, hr⟩
  · rw [hb, hp]
  · rw [hb, hp]
    simp [hr]

theorem convert_tUInt_string_ok (s : String) (z : Int)
    (hp : parseInt? s = some z) (hr : intRangeOk .tUInt z = true) :
    (Variant.make .tString s).convert_cast .tUInt = .ok z := by
  have hb : (Variant.make .tString s).convert_cast .tUInt =
      (match parseInt? s with
        | some w =>
          if intRangeOk .tUInt w then Except.ok w
          else Except.error (bad_variant_cast.ofTypes .tString .tUInt)
        | none => Except.error (bad_variant_cast.ofTypes .tString .tUInt)) :=
    convert_cast_tUInt_pString s
  rw [hb, hp]
  simp [hr]

theorem convert_tUInt_string_err (s : String)
    (h : parseInt? s = none ∨
      ∃ z, parseInt? s = some z ∧ intRangeOk .tUInt z = false) :
    (Variant.make .tString s).convert_cast .tUInt =
      .error (bad_variant_cast.ofTypes .tString .tUInt) := by
  have hb : (Variant.make .tString s).convert_cast .tUInt =
      (match parseInt? s with
        | some w =>
          if intRangeOk .tUInt w then Except.ok w
          else Except.error (bad_variant_cast.ofTypes .tString .tUInt)
        | none => Except.error (bad_variant_cast.ofTypes .tString .tUInt)) :=
    convert_cast_tUInt_pString s
  rcases h with hp | ⟨z, hp, hr⟩
  · rw [hb, hp]
  · rw [hb, hp]
    simp [hr]

theorem breakAtDot_append_none (c : Char) (hd : c ≠ '.') :
    ∀ (cs w : List Char), breakAtDot cs = (w, none) →
      breakAtDot (cs ++ [c]) = (w ++ [c], none) := by
  intro cs
  induction cs with
  | nil =>
    intro w h
    simp only [breakAtDot, Prod.mk.injEq] at h
    obtain ⟨hw, -⟩ := h
    subst hw
    simp [breakAtDot, hd]
  | cons a as ih =>
    intro w h
    by_cases ha : a = '.'
    · rw [breakAtDot, if_pos ha] at h
      simp at h
    · rw [breakAtDot, if_neg ha] at h
      cases hbs : breakAtDot as with
      | mk w2 f2 =>
        rw [hbs] at h
        simp only [Prod.mk.injEq] at h
        obtain ⟨hw, hf⟩ := h
        subst hw
        cases f2 with
        | some fr => simp at hf
        | none =>
          rw [List.cons_append, breakAtDot, if_neg ha, ih w2 hbs]
          simp

theorem breakAtDot_append_some (c : Char) :
    ∀ (cs w f : List Char), breakAtDot cs = (w, some f) →
      breakAtDot (cs ++ [c]) = (w, some (f ++ [c])) := by
  intro cs
  induction cs with
  | nil =>
    intro w f h
    simp [breakAtDot] at h
  | cons a as ih =>
    intro w f h
    by_cases ha : a = '.'
    · rw [breakAtDot, if_pos ha] at h
      simp only [Prod.mk.injEq, Option.some.injEq] at h
      obtain ⟨hw, hf⟩ := h
      subst hw
      subst hf
      rw [List.cons_append, breakAtDot, if_pos ha]
    · rw [breakAtDot, if_neg ha] at h
      cases hbs : breakAtDot as with
      | mk w2 f2 =>
        rw [hbs] at h
        simp only [Prod.mk.injEq] at h
        obtain ⟨hw, hf⟩ := h
        subst hw
        cases f2 with
        | none => simp at hf
        | some fr =>
          simp only [Option.some.injEq] at hf
          subst hf
          rw [List.cons_append, breakAtDot, if_neg ha, ih w2 fr hbs]

theorem parseUnsignedRat?_append_nondigit (cs : List Char) (c : Char)
    (hc : charDigit? c = none) (hd : c ≠ '.') :
    parseUnsignedRat? (cs ++ [c]) = none := by
  cases hbs : breakAtDot cs with
  | mk w f =>
    cases f with
    | none =>
      have hb := breakAtDot_append_none c hd cs w hbs
      simp [parseUnsignedRat?.eq_def, hb, natOfDigitChars?_append_none w hc]
    | some fr =>
      have hb := breakAtDot_append_some c cs w fr hbs
      have hf : digitVals? (fr ++ [c]) = none := digitVals?_append_none fr hc
      simp only [parseUnsignedRat?.eq_def, hb, hf]
      rcases hw : digitVals? w with - | ds <;> simp [hw]

theorem parseRat?_mk_cons (c : Char) (cs : List Char) :
    parseRat? (String.mk (c :: cs)) =
      if c = '-' then (parseUnsignedRat? cs).map (fun q => -q)
      else if c = '+' then parseUnsignedRat? cs
      else parseUnsignedRat? (c :: cs) := rfl

/-- Appending any non-digit character other than a sign or a point to a
string makes the strict decimal-fraction parse fail as a whole. -/
theorem parseRat?_push_nondigit (s : String) (c : Char)
    (hc : charDigit? c = none) (hm : c ≠ '-') (hp : c ≠ '+') (hd : c ≠ '.') :
    parseRat? (s.push c) = none := by
  obtain ⟨data⟩ := s
  show parseRat? (String.mk (data ++ [c])) = none
  cases data with
  | nil =>
    rw [List.nil_append, parseRat?_mk_cons, if_neg hm, if_neg hp]
    have h1 := parseUnsignedRat?_append_nondigit [] c hc hd
    rw [List.nil_append] at h1
    exact h1
  | cons a as =>
    rw [List.cons_append, parseRat?_mk_cons]
    by_cases ha : a = '-'
    · rw [if_pos ha, parseUnsignedRat?_append_nondigit as c hc hd]
      rfl
    · rw [if_neg ha]
      by_cases hb : a = '+'
      · rw [if_pos hb, parseUnsignedRat?_append_nondigit as c hc hd]
      · rw [if_neg hb, ← List.cons_append,
          parseUnsignedRat?_append_nondigit (a :: as) c hc hd]

theorem convert_tDouble_string_ok (s : String) (q : Rat)
    (hp : parseRat? s = some q) :
    (Variant.make .tString s).convert_cast .tDouble = .ok q := by
  have hrw : (Variant.make .tString s).convert_cast .tDouble =
      convertRest .tDouble (.pString s) :=
    Variant.convert_cast_eq_convertRest .tDouble _ rfl
  have hd : toDoubleChecked (.pString s) = some q := by
    show parseRat? s = some q
    exact hp
  rw [hrw]
  simp [convertRest.eq_def, hd, Payload.vtype]

theorem convert_tDouble_string_err (s : String) (hp : parseRat? s = none) :
    (Variant.make .tString s).convert_cast .tDouble =
      .error (bad_variant_cast.ofTypes .tString .tDouble) := by
  have hrw : (Variant.make .tString s).convert_cast .tDouble =
      convertRest .tDouble (.pString s) :=
    Variant.convert_cast_eq_convertRest .tDouble _ rfl
  have hd : toDoubleChecked (.pString s) = none := by
    show parseRat? s = none
    exact hp
  rw [hrw]
  simp [convertRest.eq_def, hd, Payload.vtype]

/-- C5: converting a textual payload to any numeric target performs a
strict lexical parse of the entire string.  For each integral target the
conversion returns `z` exactly when the whole string parses as `z` and `z`
is in the target's range; for the floating target it returns `q` exactly
when the whole string parses as the decimal fraction `q` (every parsed
value is representable in the exact model of the floating type, so no
range failure arises there); the empty string never parses for either
parser; a failed or out-of-range parse yields the typed conversion error;
and appending a non-digit character (other than a sign, or a point for the
floating parse) makes the whole parse fail — there is no partial-prefix
parsing. -/
theorem convert_cast_strict_lexical (str : String) :
    (∀ z : Int, (Variant.make .tString str).convert_cast .tInt = .ok z ↔
      (parseInt? str = some z ∧ intRangeOk .tInt z = true)) ∧
    (∀ z : Int, (Variant.make .tString str).convert_cast .tUInt = .ok z ↔
      (parseInt? str = some z ∧ intRangeOk .tUInt z = true)) ∧
    (parseInt? "" = none) ∧
    (parseInt? str = none →
      (Variant.make .tString str).convert_cast .tInt =
        .error (bad_variant_cast.ofTypes .tString .tInt)) ∧
    (∀ z, parseInt? str = some z → intRangeOk .tInt z = false →
      (Variant.make .tString str).convert_cast .tInt =
        .error (bad_variant_cast.ofTypes .tString .tInt)) ∧
    (∀ c, charDigit? c = none → c ≠ '-' → c ≠ '+' →
      parseInt? (str.push c) = none) ∧
    (∀ q : Rat, (Variant.make .tString str).convert_cast .tDouble = .ok q ↔
      parseRat? str = some q) ∧
    (parseRat? "" = none) ∧
    (parseRat? str = none →
      (Variant.make .tString str).convert_cast .tDouble =
        .error (bad_variant_cast.ofTypes .tString .tDouble)) ∧
    (∀ c, charDigit? c = none → c ≠ '-' → c ≠ '+' → c ≠ '.' →
      parseRat? (str.push c) = none) := by
  refine ⟨?_, ?_, rfl, ?_, ?_, ?_, ?_, rfl, ?_, ?_⟩
  · intro z
    constructor
    · intro h
      cases hp : parseInt? str with
      | none =>
        rw [convert_tInt_string_err str (Or.inl hp)] at h
        exact absurd h (by simp)
      | some w =>
        by_cases hw : intRangeOk .tInt w = true
        · rw [convert_tInt_string_ok str w hp hw] at h
          simp only [Except.ok.injEq] at h
          subst h
          exact ⟨rfl, hw⟩
        · have hw' : intRangeOk .tInt w = false := by
            revert hw
            cases intRangeOk .tInt w <;> simp
          rw [convert_tInt_string_err str (Or.inr ⟨w, hp, hw'⟩)] at h
          exact absurd h (by simp)
    · rintro ⟨hp, hr⟩
      exact convert_tInt_string_ok str z hp hr
  · intro z
    constructor
    · intro h
      cases hp : parseInt? str with
      | none =>
        rw [convert_tUInt_string_err str (Or.inl hp)] at h
        exact absurd h (by simp)
      | some w =>
        by_cases hw : intRangeOk .tUInt w = true
        · rw [convert_tUInt_string_ok str w hp hw] at h
          simp only [Except.ok.injEq] at h
          subst h
          exact ⟨rfl, hw⟩
        · have hw' : intRangeOk .tUInt w = false := by
            revert hw
            cases intRangeOk .tUInt w <;> simp
          rw [convert_tUInt_string_err str (Or.inr ⟨w, hp, hw'⟩)] at h
          exact absurd h (by simp)
    · rintro ⟨hp, hr⟩
      exact convert_tUInt_string_ok str z hp hr
  · intro hp
    exact convert_tInt_string_err str (Or.inl hp)
  · intro z hp hr
    exact convert_tInt_string_err str (Or.inr ⟨z, hp, hr⟩)
  · intro c hc hm hp
    exact parseInt?_push_nondigit str c hc hm hp
  · intro q
    constructor
    · intro h
      cases hp : parseRat? str with
      | none =>
        rw [convert_tDouble_string_err str hp] at h
        exact absurd h (by simp)
      | some w =>
        rw [convert_tDouble_string_ok str w hp] at h
        simp only [Except.ok.injEq] at h
        subst h
        rfl
    · intro hp
      exact convert_tDouble_string_ok str q hp
  · intro hp
    exact convert_tDouble_string_err str hp
  · intro c hc hm hp hd
    exact parseRat?_push_nondigit str c hc hm hp hd

theorem convert_cast_strict_lexical_witness :
    ((Variant.make .tString "12x").convert_cast .tInt =
      .error (bad_variant_cast.ofTypes .tString .tInt)) ∧
    ((Variant.make .tString "2.5.1").convert_cast .tDouble =
      .error (bad_variant_cast.ofTypes .tString .tDouble)) :=
  ⟨(convert_cast_strict_lexical "12x").2.2.2.1 (by rfl),
   (convert_cast_strict_lexical "2.5.1").2.2.2.2.2.2.2.2.1 (by rfl)⟩

/-- C7: for the integral numeric types (whose canonical decimal rendering
is lossless), converting a value to its textual rendering and
convert-casting that text back returns exactly the original value. -/
theorem convert_cast_text_roundtrip (v u : Int) (hv : VType.wf .tInt v)
    (hu : VType.wf .tUInt u) :
    ((Variant.make .tInt v).convert_cast .tString =
      .ok (intDecimalRender v)) ∧
    ((Variant.make .tString (intDecimalRender v)).convert_cast .tInt =
      .ok v) ∧
    ((Variant.make .tUInt u).convert_cast .tString =
      .ok (intDecimalRender u)) ∧
    ((Variant.make .tString (intDecimalRender u)).convert_cast .tUInt =
      .ok u) := by
  refine ⟨rfl, ?_, rfl, ?_⟩
  · exact convert_tInt_string_ok _ v (parseInt?_intDecimalRender v)
      ((intRangeOk_tInt_iff v).mpr hv)
  · exact convert_tUInt_string_ok _ u (parseInt?_intDecimalRender u)
      ((intRangeOk_tUInt_iff u).mpr hu)

theorem convert_cast_text_roundtrip_witness :
    ((Variant.make .tInt (-37)).convert_cast .tString =
      .ok (intDecimalRender (-37))) ∧
    ((Variant.make .tString (intDecimalRender (-37))).convert_cast .tInt =
      .ok (-37)) ∧
    ((Variant.make .tUInt 12).convert_cast .tString =
      .ok (intDecimalRender 12)) ∧
    ((Variant.make .tString (intDecimalRender 12)).convert_cast .tUInt =
      .ok 12) :=
  convert_cast_text_roundtrip (-37) 12 ⟨by decide, by decide⟩
    ⟨by decide, by decide⟩

/-- C2: for every numeric source type and well-formed value, the checked
numeric conversion to each integral target returns exactly the truncated-
toward-zero mathematical value when that value lies in the target's true
representable range, and fails with the typed conversion error when it does
not — never wrapping, never silently truncating, with no signed/unsigned
reinterpretation; conversion to the floating target returns the exact
mathematical value. -/
theorem convert_cast_numeric_checked (s : VType) (hs : s.isNumeric = true)
    (x : s.carrier) (hx : s.wf x) :
    ((intRangeOk .tInt (truncTowardZero (VType.asRat s x)) = true →
        (Variant.make s x).convert_cast .tInt =
          .ok (truncTowardZero (VType.asRat s x))) ∧
      (intRangeOk .tInt (truncTowardZero (VType.asRat s x)) = false →
        (Variant.make s x).convert_cast .tInt =
          .error (bad_variant_cast.ofTypes s .tInt))) ∧
    ((intRangeOk .tUInt (truncTowardZero (VType.asRat s x)) = true →
        (Variant.make s x).convert_cast .tUInt =
          .ok (truncTowardZero (VType.asRat s x))) ∧
      (intRangeOk .tUInt (truncTowardZero (VType.asRat s x)) = false →
        (Variant.make s x).convert_cast .tUInt =
          .error (bad_variant_cast.ofTypes s .tUInt))) ∧
    ((Variant.make s x).convert_cast .tDouble = .ok (VType.asRat s x)) := by
  cases s
  case tInt =>
    have hz : truncTowardZero (VType.asRat .tInt x) = x :=
      truncTowardZero_intCast x
    have hu : (Variant.make .tInt x).convert_cast .tUInt =
        convertRest .tUInt (.pInt x) :=
      Variant.convert_cast_eq_convertRest .tUInt _ rfl
    refine ⟨⟨?_, ?_⟩, ⟨?_, ?_⟩, rfl⟩
    · intro _
      rw [hz]
      rfl
    · intro hfalse
      have htrue : intRangeOk .tInt (truncTowardZero (VType.asRat .tInt x)) =
          true := by
        rw [hz]
        exact (intRangeOk_tInt_iff x).mpr hx
      rw [hfalse] at htrue
      exact absurd htrue (by simp)
    · intro htrue
      rw [hu, convertRest_tUInt_numeric (.pInt x) (VType.asRat .tInt x) rfl,
        if_pos htrue]
    · intro hfalse
      rw [hu, convertRest_tUInt_numeric (.pInt x) (VType.asRat .tInt x) rfl,
        if_neg (by simp [hfalse])]
      rfl
  case tUInt =>
    have hz : truncTowardZero (VType.asRat .tUInt x) = x :=
      truncTowardZero_intCast x
    have hi : (Variant.make .tUInt x).convert_cast .tInt =
        convertRest .tInt (.pUInt x) :=
      Variant.convert_cast_eq_convertRest .tInt _ rfl
    refine ⟨⟨?_, ?_⟩, ⟨?_, ?_⟩, rfl⟩
    · intro htrue
      rw [hi, convertRest_tInt_numeric (.pUInt x) (VType.asRat .tUInt x) rfl,
        if_pos htrue]
    · intro hfalse
      rw [hi, convertRest_tInt_numeric (.pUInt x) (VType.asRat .tUInt x) rfl,
        if_neg (by simp [hfalse])]
      rfl
    · intro _
      rw [hz]
      rfl
    · intro hfalse
      have htrue : intRangeOk .tUInt (truncTowardZero (VType.asRat .tUInt x)) =
          true := by
        rw [hz]
        exact (intRangeOk_tUInt_iff x).mpr hx
      rw [hfalse] at htrue
      exact absurd htrue (by simp)
  case tDouble =>
    have hi : (Variant.make .tDouble x).convert_cast .tInt =
        convertRest .tInt (.pDouble x) :=
      Variant.convert_cast_eq_convertRest .tInt _ rfl
    have hu : (Variant.make .tDouble x).convert_cast .tUInt =
        convertRest .tUInt (.pDouble x) :=
      Variant.convert_cast_eq_convertRest .tUInt _ rfl
    refine ⟨⟨?_, ?_⟩, ⟨?_, ?_⟩, rfl⟩
    · intro htrue
      rw [hi, convertRest_tInt_numeric (.pDouble x) (VType.asRat .tDouble x) rfl,
        if_pos htrue]
    · intro hfalse
      rw [hi, convertRest_tInt_numeric (.pDouble x) (VType.asRat .tDouble x) rfl,
        if_neg (by simp [hfalse])]
      rfl
    · intro htrue
      rw [hu, convertRest_tUInt_numeric (.pDouble x) (VType.asRat .tDouble x) rfl,
        if_pos htrue]
    · intro hfalse
      rw [hu, convertRest_tUInt_numeric (.pDouble x) (VType.asRat .tDouble x) rfl,
        if_neg (by simp [hfalse])]
      rfl
  all_goals exact absurd hs (by decide)

theorem convert_cast_numeric_checked_witness :
    (Variant.make .tDouble ⟨-27, 10, by decide, by decide⟩).convert_cast
        .tInt =
      .ok (truncTowardZero
        (VType.asRat .tDouble ⟨-27, 10, by decide, by decide⟩)) :=
  ((convert_cast_numeric_checked .tDouble rfl
      ⟨-27, 10, by decide, by decide⟩ trivial).1).1 (by decide)

end FB
